import Mathlib

/-!
Shallow embedding of the aggregation engine of `be/src/olap/aggregate_func.h`
(doris storage engine).  A `RowCursorCell` is modelled as a null flag plus a
typed value; the per-(method, type) `AggregateFuncTraits::update` functions are
translated one by one.  Parts of the repository that the header references but
that are not available (hll.h helpers, the AggregateInfo constructor body in
aggregate_func.cpp) are modelled from the spec and marked as such.
-/

namespace Doris

/-- Model of `RowCursorCell`: a null flag plus the value bytes, typed at the
column's `CppType`. -/
structure Cell (α : Type) where
  isNull : Bool
  val : α
deriving DecidableEq, Repr

/-- `AggregateFuncTraits<OLAP_FIELD_AGGREGATION_MIN, field_type>::update`
(aggregate_func.h lines 122-134): a null source is ignored; if the destination
is null or the source is smaller, the destination adopts the source and is
marked non-null; otherwise the destination is left untouched. -/
def minUpdate {α : Type} [LinearOrder α] (dst src : Cell α) : Cell α :=
  if src.isNull then dst
  else if dst.isNull || src.val < dst.val then { isNull := false, val := src.val }
  else dst

/-- `AggregateFuncTraits<OLAP_FIELD_AGGREGATION_MAX, field_type>::update`
(aggregate_func.h lines 167-179): like `minUpdate` with the comparison
reversed. -/
def maxUpdate {α : Type} [LinearOrder α] (dst src : Cell α) : Cell α :=
  if src.isNull then dst
  else if dst.isNull || src.val > dst.val then { isNull := false, val := src.val }
  else dst

/-- `AggregateFuncTraits<OLAP_FIELD_AGGREGATION_SUM, field_type>::update`
(aggregate_func.h lines 206-220): a null source is ignored; a null destination
adopts the source as the initial sum; otherwise the source is added in place
(the null flag is not touched in the add branch). -/
def sumUpdate {α : Type} [Add α] (dst src : Cell α) : Cell α :=
  if src.isNull then dst
  else if dst.isNull then { isNull := false, val := src.val }
  else { isNull := dst.isNull, val := dst.val + src.val }

/-- `AggregateFuncTraits<OLAP_FIELD_AGGREGATION_REPLACE, field_type>::update`
(aggregate_func.h lines 251-257): the destination null flag is unconditionally
set to the source's; the value bytes are copied only when the source is
non-null. -/
def replaceUpdate {α : Type} (dst src : Cell α) : Cell α :=
  if src.isNull then { isNull := true, val := dst.val }
  else { isNull := false, val := src.val }

/-- `BaseAggregateFuncs::init` (aggregate_func.h lines 95-97): writes `true`
into the null flag and touches nothing else. -/
def baseInit {α : Type} (dst : Cell α) : Cell α :=
  { isNull := true, val := dst.val }

/-- `BaseAggregateFuncs::finalize` (aggregate_func.h lines 110-111): does
nothing.  MIN/MAX/SUM/REPLACE all inherit it. -/
def baseFinalize {α : Type} (c : Cell α) : Cell α := c

/-- The signed 128-bit integer type `CppType` of `OLAP_FIELD_TYPE_LARGEINT`
(`__int128`), represented by its signed integer interpretation.  Addition
wraps modulo `2 ^ 128` into `[-2 ^ 127, 2 ^ 127)`; comparison is signed. -/
def Int128 : Type := Int

instance : LinearOrder Int128 := inferInstanceAs (LinearOrder Int)

instance : DecidableEq Int128 := inferInstanceAs (DecidableEq Int)

instance (n : Nat) : OfNat Int128 n := inferInstanceAs (OfNat Int n)

/-- Native `__int128` addition: wraps modulo `2 ^ 128` into the signed
range. -/
def int128Add (a b : Int128) : Int128 :=
  (Int.add a b + 2 ^ 127) % 2 ^ 128 - 2 ^ 127

instance : Add Int128 := ⟨int128Add⟩

/-- `AggregateFuncTraits<OLAP_FIELD_AGGREGATION_MIN, OLAP_FIELD_TYPE_LARGEINT>::update`
(aggregate_func.h lines 141-160): the null-destination case returns early after
a byte-copy; otherwise both values are `memcpy`-ed into locals and compared. -/
def minUpdateLargeint (dst src : Cell Int128) : Cell Int128 :=
  if src.isNull then dst
  else if dst.isNull then { isNull := false, val := src.val }
  else
    let dst_val := dst.val
    let src_val := src.val
    if src_val < dst_val then { isNull := false, val := src.val }
    else dst

/-- `AggregateFuncTraits<OLAP_FIELD_AGGREGATION_MAX, OLAP_FIELD_TYPE_LARGEINT>::update`
(aggregate_func.h lines 186-199): values are `memcpy`-ed into locals and
compared under the combined `dst_null || src_val > dst_val` condition. -/
def maxUpdateLargeint (dst src : Cell Int128) : Cell Int128 :=
  if src.isNull then dst
  else
    let dst_val := dst.val
    let src_val := src.val
    if dst.isNull || src_val > dst_val then { isNull := false, val := src.val }
    else dst

/-- `AggregateFuncTraits<OLAP_FIELD_AGGREGATION_SUM, OLAP_FIELD_TYPE_LARGEINT>::update`
(aggregate_func.h lines 227-244): null destination adopts the source via
`memcpy`; otherwise both values are copied into locals, added, and the result
copied back (the null flag is not touched in the add branch). -/
def sumUpdateLargeint (dst src : Cell Int128) : Cell Int128 :=
  if src.isNull then dst
  else if dst.isNull then { isNull := false, val := src.val }
  else
    let dst_val := dst.val
    let src_val := src.val
    let sum_val := dst_val + src_val
    { isNull := dst.isNull, val := sum_val }

/-- Model of `Slice`: `data` is the byte sequence of memory starting at the
slice's data pointer (flat memory: writing `n` bytes overwrites the first `n`
positions, whatever the original allocation size was), `size` is the recorded
length. -/
structure Slice where
  data : List Nat
  size : Nat
deriving DecidableEq, Repr

/-- `memory_copy(dst, src, n)` on the flat-memory model: the first `n` bytes
at the destination become the first `n` bytes of the source; memory past `n`
is untouched. -/
def memory_copy (dst src : List Nat) (n : Nat) : List Nat :=
  src.take n ++ dst.drop n

/-- `AggregateFuncTraits<OLAP_FIELD_AGGREGATION_REPLACE, OLAP_FIELD_TYPE_CHAR>::update`
(aggregate_func.h lines 262-280), shared by VARCHAR (lines 283-286).
`hasArena` models `arena != nullptr`.  The null flag is copied from the
source; for a non-null source, if there is no arena, or the destination was
non-null with `dst_slice->size >= src_slice->size`, the bytes are copied in
place with `memory_copy(dst_slice->data, src_slice->data, src_slice->size)`
and the recorded size set to the source's; otherwise a fresh buffer of
exactly `src_slice->size` bytes is taken from the arena and filled with the
source bytes. -/
def replaceCharUpdate (hasArena : Bool) (dst src : Cell Slice) : Cell Slice :=
  let dst_null := dst.isNull
  let src_null := src.isNull
  if src_null then { isNull := true, val := dst.val }
  else
    let d := dst.val
    let s := src.val
    if hasArena = false || (dst_null = false && s.size ≤ d.size) then
      { isNull := false,
        val := { data := memory_copy d.data s.data s.size, size := s.size } }
    else
      { isNull := false,
        val := { data := s.data.take s.size, size := s.size } }

/-- HLL_REGISTERS_COUNT.  Modelled from the spec: the fixed register-array
size of the HLL sketch (`hll.h` is not part of this excerpt). -/
def HLL_REGISTERS_COUNT : Nat := 16384

/-- HLL_EXPLICLIT_INT64_NUM.  Modelled from the spec: the fixed count
threshold above which an explicit hash set forces conversion to register
form (`hll.h` is not part of this excerpt). -/
def HLL_EXPLICLIT_INT64_NUM : Nat := 160

/-- HLL_COLUMN_DEFAULT_LEN.  Modelled from the spec: the fixed column
byte-length budget against which the sparse encoding's size is compared
(`hll.h` is not part of this excerpt). -/
def HLL_COLUMN_DEFAULT_LEN : Nat := 16384

/-- sizeof(HllSetResolver::SparseIndexType).  Modelled from the spec: the
byte width of one sparse register index (`hll.h` is not part of this
excerpt). -/
def sparseIndexSize : Nat := 4

/-- sizeof(HllSetResolver::SparseValueType).  Modelled from the spec: the
byte width of one sparse register value (`hll.h` is not part of this
excerpt). -/
def sparseValueSize : Nat := 1

/-- sizeof(HllSetResolver::SparseLengthValueType).  Modelled from the spec:
the byte width of the sparse encoding's length header (`hll.h` is not part
of this excerpt). -/
def sparseLengthSize : Nat := 4

/-- Model of `HllContext` (declared in `hll.h`, outside this excerpt): the
explicit 64-bit hash set (as a list; `size` is its length), the fixed
register array, and the flag marking that the sparse/full representation is
already in use. -/
structure HllContext where
  hasSparseOrFull : Bool
  hash64Set : List Nat
  registers : List Nat
deriving DecidableEq, Repr

/-- Modelled from the spec: the register index a 64-bit hash maps to
(`hll.h` is not part of this excerpt). -/
def hllHashIndex (h : Nat) : Nat := h % HLL_REGISTERS_COUNT

/-- Modelled from the spec: the register value a 64-bit hash contributes;
always at least 1, as in a HyperLogLog rank (`hll.h` is not part of this
excerpt). -/
def hllHashValue (h : Nat) : Nat := Nat.log2 (h / HLL_REGISTERS_COUNT) + 1

/-- Modelled from the spec: `HllSetHelper::set_max_register` folds each
explicit hash into the register array, setting the hash's register to the
max of its current value and the hash's contributed value (`hll.h` is not
part of this excerpt). -/
def set_max_register (regs : List Nat) (hashes : List Nat) : List Nat :=
  hashes.foldl
    (fun rs h =>
      rs.set (hllHashIndex h) (max (rs.getD (hllHashIndex h) 0) (hllHashValue h)))
    regs

/-- Which `HllSetHelper::set_*` serializer the finalize function invoked on
the destination slice (`emptyE` means none was invoked at all, so not even a
format tag byte was written). -/
inductive HllTag where
  | emptyE
  | explicitE
  | sparseE
  | fullE
deriving DecidableEq, Repr

/-- Result of `AggregateFuncTraits<OLAP_FIELD_AGGREGATION_HLL_UNION,
OLAP_FIELD_TYPE_HLL>::finalize`: the chosen serializer, the bytes it wrote
(`result_len`; 0 when no serializer ran), the slice's recorded size
(`result_len & 0xffff`), the register array after any conversion, and
whether register conversion (the `set_max_register` block) ran. -/
structure HllFinalizeResult where
  tag : HllTag
  bytesWritten : Nat
  sliceSize : Nat
  registers : List Nat
  converted : Bool
deriving DecidableEq, Repr

/-- The number of non-zero registers, i.e. `index_to_value.size()` once the
conversion loop has filled the map. -/
def nonzeroCount (regs : List Nat) : Nat := (regs.filter (fun r => r ≠ 0)).length

/-- The `sparse_set_len` computed at aggregate_func.h lines 319-322 from the
number of map entries. -/
def sparseSetLen (idxCount : Nat) : Nat :=
  idxCount * (sparseIndexSize + sparseValueSize) + sparseLengthSize

/-- Modelled from the spec: the byte count `HllSetHelper::set_full` reports
(a format tag plus the fixed register array; `hll.h` is not part of this
excerpt). -/
def fullEncodingLen : Nat := 1 + HLL_REGISTERS_COUNT

/-- Modelled from the spec: the byte count `HllSetHelper::set_explicit`
reports (a format tag, a count, and eight bytes per hash; `hll.h` is not
part of this excerpt). -/
def explicitEncodingLen (hashCount : Nat) : Nat := 1 + 1 + 8 * hashCount

/-- `AggregateFuncTraits<OLAP_FIELD_AGGREGATION_HLL_UNION, OLAP_FIELD_TYPE_HLL>::finalize`
(aggregate_func.h lines 305-340): if the sparse/full representation is in
use or the explicit hash set exceeds `HLL_EXPLICLIT_INT64_NUM`, the hashes
are folded into the registers and `index_to_value` collects the non-zero
ones; then the serializer is chosen: full if `sparse_set_len` reaches
`HLL_COLUMN_DEFAULT_LEN`, else sparse if the map is non-empty, else explicit
if the hash set is non-empty, else nothing is written and `result_len`
stays 0.  The slice size is set to `result_len & 0xffff`. -/
def hllFinalize (ctx : HllContext) : HllFinalizeResult :=
  let converted :=
    ctx.hasSparseOrFull || decide (ctx.hash64Set.length > HLL_EXPLICLIT_INT64_NUM)
  let regs := if converted then set_max_register ctx.registers ctx.hash64Set
              else ctx.registers
  let idxCount := if converted then nonzeroCount regs else 0
  let result_len :=
    if sparseSetLen idxCount ≥ HLL_COLUMN_DEFAULT_LEN then fullEncodingLen
    else if idxCount > 0 then sparseSetLen idxCount
    else if ctx.hash64Set.length > 0 then explicitEncodingLen ctx.hash64Set.length
    else 0
  let tag :=
    if sparseSetLen idxCount ≥ HLL_COLUMN_DEFAULT_LEN then HllTag.fullE
    else if idxCount > 0 then HllTag.sparseE
    else if ctx.hash64Set.length > 0 then HllTag.explicitE
    else HllTag.emptyE
  { tag := tag
    bytesWritten := result_len
    sliceSize := result_len % 65536
    registers := regs
    converted := converted }

/-- Modelled from the spec: a decoded source HLL sketch, as seen by
`HllSetHelper::fill_set` — its explicit hashes and, for a sparse/full
encoded source, its register payload (`hll.h` is not part of this
excerpt). -/
structure HllSketch where
  hashes : List Nat
  regPayload : Option (List Nat)
deriving DecidableEq, Repr

/-- Modelled from the spec: `HllSetHelper::fill_set` inserts the source
sketch's elements into the destination context — explicit hashes into the
hash set, and a sparse/full register payload into the register array
(max-merging, and marking the sparse/full representation as in use);
`hll.h`/`hll.cpp` are not part of this excerpt. -/
def fill_set (src : HllSketch) (ctx : HllContext) : HllContext :=
  match src.regPayload with
  | none => { ctx with hash64Set := ctx.hash64Set ++ src.hashes }
  | some payload =>
      { ctx with
        hasSparseOrFull := true
        hash64Set := ctx.hash64Set ++ src.hashes
        registers := (ctx.registers.zip payload).map (fun p => max p.1 p.2) }

/-- `AggregateFuncTraits<OLAP_FIELD_AGGREGATION_HLL_UNION, OLAP_FIELD_TYPE_HLL>::update`
(aggregate_func.h lines 299-303): reads the context behind the destination
slice and calls `fill_set` with the source cell's bytes; the null flags are
never consulted. -/
def hllUpdate (ctx : HllContext) (src : HllSketch) : HllContext :=
  fill_set src ctx

/-- The per-(method, type) traits bundle a specialization of
`AggregateFuncTraits` supplies: its `update` function pointer and its
`merge` member.  `υ` is the function-pointer type; `merge = none` models the
`nullptr` default inherited from `BaseAggregateFuncs` (aggregate_func.h
lines 103-107). -/
structure AggTraits (υ : Type) where
  update : υ
  merge : Option υ
deriving DecidableEq, Repr

/-- The function pointers `AggregateInfo` ends up holding (`_update_fn` and
`_merge_fn`, aggregate_func.h lines 81-82). -/
structure AggregateInfoFns (υ : Type) where
  updateFn : υ
  mergeFn : υ
deriving DecidableEq, Repr

/-- Modelled from the spec: the `AggregateInfo` templated constructor (its
body lives in aggregate_func.cpp, not in this excerpt) — per the comment at
aggregate_func.h lines 103-106, it sets the merge function to the update
function when the traits' merge member is `nullptr`. -/
def mkAggregateInfo {υ : Type} (t : AggTraits υ) : AggregateInfoFns υ :=
  { updateFn := t.update, mergeFn := t.merge.getD t.update }

/-- The traits of `BaseAggregateFuncs` itself (the default for unspecialized
(method, type) pairs): update does nothing, merge is `nullptr`. -/
def baseTraits (α : Type) : AggTraits (Cell α → Cell α → Cell α) :=
  { update := fun dst _ => dst, merge := none }

/-- The MIN specialization's traits: its `update`, with `merge` inherited
(`nullptr`) from `BaseAggregateFuncs`. -/
def minTraits (α : Type) [LinearOrder α] : AggTraits (Cell α → Cell α → Cell α) :=
  { update := minUpdate, merge := none }

/-- The MIN/LARGEINT specialization's traits. -/
def minLargeintTraits : AggTraits (Cell Int128 → Cell Int128 → Cell Int128) :=
  { update := minUpdateLargeint, merge := none }

/-- The MAX specialization's traits. -/
def maxTraits (α : Type) [LinearOrder α] : AggTraits (Cell α → Cell α → Cell α) :=
  { update := maxUpdate, merge := none }

/-- The MAX/LARGEINT specialization's traits. -/
def maxLargeintTraits : AggTraits (Cell Int128 → Cell Int128 → Cell Int128) :=
  { update := maxUpdateLargeint, merge := none }

/-- The SUM specialization's traits. -/
def sumTraits (α : Type) [Add α] : AggTraits (Cell α → Cell α → Cell α) :=
  { update := sumUpdate, merge := none }

/-- The SUM/LARGEINT specialization's traits. -/
def sumLargeintTraits : AggTraits (Cell Int128 → Cell Int128 → Cell Int128) :=
  { update := sumUpdateLargeint, merge := none }

/-- The REPLACE specialization's traits. -/
def replaceTraits (α : Type) : AggTraits (Cell α → Cell α → Cell α) :=
  { update := replaceUpdate, merge := none }

/-- The REPLACE/CHAR (and VARCHAR) specialization's traits; the update takes
the arena flag. -/
def replaceCharTraits : AggTraits (Bool → Cell Slice → Cell Slice → Cell Slice) :=
  { update := replaceCharUpdate, merge := none }

/-- The HLL_UNION/HLL specialization's traits. -/
def hllTraits : AggTraits (HllContext → HllSketch → HllContext) :=
  { update := hllUpdate, merge := none }

/-- The sum of the non-null values of a cell sequence, in sequence order. -/
def sumNonNull {α : Type} [Add α] [Zero α] (l : List (Cell α)) : α :=
  (l.filterMap (fun c => if c.isNull then none else some c.val)).sum

/-- The value of the last non-null cell of `l`, or `d` when every cell of
`l` is null. -/
def lastNonNullVal {α : Type} (d : α) (l : List (Cell α)) : α :=
  match l.reverse.find? (fun c => !c.isNull) with
  | some c => c.val
  | none => d

lemma minUpdate_null_src {α : Type} [LinearOrder α] (d s : Cell α)
    (h : s.isNull = true) : minUpdate d s = d := by
  simp [minUpdate, h]

lemma maxUpdate_null_src {α : Type} [LinearOrder α] (d s : Cell α)
    (h : s.isNull = true) : maxUpdate d s = d := by
  simp [maxUpdate, h]

lemma minUpdate_both {α : Type} [LinearOrder α] (d s : Cell α)
    (hs : s.isNull = false) (hd : d.isNull = false) :
    minUpdate d s = { isNull := false, val := min d.val s.val } := by
  by_cases h : s.val < d.val
  · simp [minUpdate, hs, hd, h, min_eq_right (le_of_lt h)]
  · have : min d.val s.val = d.val := min_eq_left (not_lt.mp h)
    cases d with
    | mk b v => simp_all [minUpdate]

lemma maxUpdate_both {α : Type} [LinearOrder α] (d s : Cell α)
    (hs : s.isNull = false) (hd : d.isNull = false) :
    maxUpdate d s = { isNull := false, val := max d.val s.val } := by
  by_cases h : d.val < s.val
  · simp [maxUpdate, hs, hd, h, max_eq_right (le_of_lt h)]
  · have : max d.val s.val = d.val := max_eq_left (not_lt.mp h)
    cases d with
    | mk b v => simp_all [maxUpdate]

lemma minUpdate_foldl_allnull {α : Type} [LinearOrder α] (d : Cell α)
    (l : List (Cell α)) (h : ∀ c ∈ l, c.isNull = true) :
    List.foldl minUpdate d l = d := by
  induction l generalizing d with
  | nil => rfl
  | cons c t ih =>
      have hc : c.isNull = true := h c (by simp)
      simp only [List.foldl_cons, minUpdate_null_src d c hc]
      exact ih d (fun x hx => h x (by simp [hx]))

lemma maxUpdate_foldl_allnull {α : Type} [LinearOrder α] (d : Cell α)
    (l : List (Cell α)) (h : ∀ c ∈ l, c.isNull = true) :
    List.foldl maxUpdate d l = d := by
  induction l generalizing d with
  | nil => rfl
  | cons c t ih =>
      have hc : c.isNull = true := h c (by simp)
      simp only [List.foldl_cons, maxUpdate_null_src d c hc]
      exact ih d (fun x hx => h x (by simp [hx]))

/-- C4: MIN (resp. MAX) update adopts the source when the destination is
null, marking it non-null, and otherwise keeps the smaller (resp. larger)
value; folding `[5, null, 2, 9]` from the initialized (null) state yields 2
for MIN and 9 for MAX, and folding only nulls leaves the destination
null. -/
theorem C4_min_max_update :
    (∀ {α : Type} [LinearOrder α] (d s : Cell α), s.isNull = false →
        (d.isNull = true →
          minUpdate d s = { isNull := false, val := s.val } ∧
          maxUpdate d s = { isNull := false, val := s.val }) ∧
        (d.isNull = false →
          minUpdate d s = { isNull := false, val := min d.val s.val } ∧
          maxUpdate d s = { isNull := false, val := max d.val s.val })) ∧
    (∀ c : Cell Int, ∀ v : Int,
        List.foldl minUpdate (baseInit c)
          [{ isNull := false, val := 5 }, { isNull := true, val := v },
           { isNull := false, val := 2 }, { isNull := false, val := 9 }] =
          { isNull := false, val := 2 } ∧
        List.foldl maxUpdate (baseInit c)
          [{ isNull := false, val := 5 }, { isNull := true, val := v },
           { isNull := false, val := 2 }, { isNull := false, val := 9 }] =
          { isNull := false, val := 9 }) ∧
    (∀ {α : Type} [LinearOrder α] (c : Cell α) (l : List (Cell α)),
        (∀ x ∈ l, x.isNull = true) →
        List.foldl minUpdate (baseInit c) l = baseInit c ∧
        List.foldl maxUpdate (baseInit c) l = baseInit c) := by
  refine ⟨?_, ?_, ?_⟩
  · intro α inst d s hs
    constructor
    · intro hd
      constructor
      · simp [minUpdate, hs, hd]
      · simp [maxUpdate, hs, hd]
    · intro hd
      exact ⟨minUpdate_both d s hs hd, maxUpdate_both d s hs hd⟩
  · intro c v
    constructor
    · norm_num [List.foldl, minUpdate, baseInit]
    · norm_num [List.foldl, maxUpdate, baseInit]
  · intro α inst c l h
    exact ⟨minUpdate_foldl_allnull _ l h, maxUpdate_foldl_allnull _ l h⟩

/-- Witness for C4 at concrete inputs. -/
theorem C4_min_max_update_witness :
    minUpdate ({ isNull := true, val := 0 } : Cell Int) { isNull := false, val := 5 } =
      { isNull := false, val := 5 } ∧
    List.foldl minUpdate (baseInit ({ isNull := false, val := 77 } : Cell Int))
      [{ isNull := false, val := 5 }, { isNull := true, val := 3 },
       { isNull := false, val := 2 }, { isNull := false, val := 9 }] =
      { isNull := false, val := 2 } :=
  ⟨((C4_min_max_update.1 ({ isNull := true, val := 0 } : Cell Int)
      ({ isNull := false, val := 5 } : Cell Int) rfl).1 rfl).1,
   (C4_min_max_update.2.1 { isNull := false, val := 77 } 3).1⟩

lemma replaceUpdate_isNull {α : Type} (d s : Cell α) :
    (replaceUpdate d s).isNull = s.isNull := by
  cases hs : s.isNull <;> simp [replaceUpdate, hs]

lemma replace_foldl_isNull {α : Type} (d : Cell α) (l : List (Cell α))
    (h : l ≠ []) :
    (List.foldl replaceUpdate d l).isNull = (l.getLast h).isNull := by
  induction l generalizing d with
  | nil => exact absurd rfl h
  | cons c t ih =>
      cases t with
      | nil => simp [replaceUpdate_isNull]
      | cons c₂ t₂ =>
          rw [List.foldl_cons, List.getLast_cons (by simp)]
          exact ih (replaceUpdate d c) (by simp)

lemma replace_foldl_val {α : Type} (d : Cell α) (l : List (Cell α)) :
    (List.foldl replaceUpdate d l).val = lastNonNullVal d.val l := by
  induction l generalizing d with
  | nil => simp [lastNonNullVal]
  | cons c t ih =>
      rw [List.foldl_cons, ih (replaceUpdate d c)]
      unfold lastNonNullVal
      rw [List.reverse_cons, List.find?_append]
      cases hf : t.reverse.find? (fun x => !x.isNull) with
      | some x => simp [hf]
      | none =>
          cases hc : c.isNull <;> simp [hf, hc, replaceUpdate]

/-- C8: REPLACE update makes the destination's null flag equal the last
source's null flag, its value equal the last non-null source's value, and
folding `[A, B, C]` yields `C` whenever `C` is non-null, independent of the
earlier cells' nullness. -/
theorem C8_replace_last_write_wins :
    ∀ {α : Type} (d : Cell α) (l : List (Cell α)) (h : l ≠ []),
      (List.foldl replaceUpdate d l).isNull = (l.getLast h).isNull ∧
      (List.foldl replaceUpdate d l).val = lastNonNullVal d.val l ∧
      (∀ a b c : Cell α, c.isNull = false →
        List.foldl replaceUpdate d [a, b, c] = { isNull := false, val := c.val }) := by
  intro α d l h
  refine ⟨replace_foldl_isNull d l h, replace_foldl_val d l, ?_⟩
  intro a b c hc
  have h1 : (List.foldl replaceUpdate d [a, b, c]).isNull = false := by
    rw [replace_foldl_isNull d [a, b, c] (by simp)]
    simpa using hc
  have h2 : (List.foldl replaceUpdate d [a, b, c]).val = c.val := by
    rw [replace_foldl_val d [a, b, c]]
    unfold lastNonNullVal
    simp [hc]
  cases hr : List.foldl replaceUpdate d [a, b, c] with
  | mk b₀ v₀ =>
      have hb := h1
      have hv := h2
      rw [hr] at hb hv
      simp_all

/-- Witness for C8 at concrete inputs. -/
theorem C8_replace_last_write_wins_witness :
    List.foldl replaceUpdate ({ isNull := true, val := 0 } : Cell Int)
      [{ isNull := true, val := 7 }, { isNull := false, val := 1 },
       { isNull := false, val := 3 }] =
      { isNull := false, val := 3 } :=
  (C8_replace_last_write_wins ({ isNull := true, val := 0 } : Cell Int)
      [{ isNull := true, val := 7 }] (by simp)).2.2
    { isNull := true, val := 7 } { isNull := false, val := 1 }
    { isNull := false, val := 3 } rfl

lemma sumUpdate_null_src {α : Type} [Add α] (d s : Cell α)
    (h : s.isNull = true) : sumUpdate d s = d := by
  simp [sumUpdate, h]

lemma sumNonNull_cons_null {α : Type} [AddMonoid α] (c : Cell α)
    (t : List (Cell α)) (h : c.isNull = true) :
    sumNonNull (c :: t) = sumNonNull t := by
  simp [sumNonNull, List.filterMap_cons, h]

lemma sumNonNull_cons_notnull {α : Type} [AddMonoid α] (c : Cell α)
    (t : List (Cell α)) (h : c.isNull = false) :
    sumNonNull (c :: t) = c.val + sumNonNull t := by
  simp [sumNonNull, List.filterMap_cons, h]

lemma sumNonNull_allnull {α : Type} [AddMonoid α] (l : List (Cell α))
    (h : ∀ c ∈ l, c.isNull = true) : sumNonNull l = 0 := by
  have : l.filterMap (fun c => if c.isNull then none else some c.val) = [] := by
    rw [List.filterMap_eq_nil_iff]
    intro c hc
    simp [h c hc]
  simp [sumNonNull, this]

lemma sumNonNull_append {α : Type} [AddMonoid α] (l₁ l₂ : List (Cell α)) :
    sumNonNull (l₁ ++ l₂) = sumNonNull l₁ + sumNonNull l₂ := by
  simp [sumNonNull, List.filterMap_append]

lemma sum_foldl_notnull {α : Type} [AddMonoid α] (a : α) (l : List (Cell α)) :
    List.foldl sumUpdate { isNull := false, val := a } l =
      { isNull := false, val := a + sumNonNull l } := by
  induction l generalizing a with
  | nil => simp [sumNonNull]
  | cons c t ih =>
      cases hc : c.isNull with
      | true =>
          rw [List.foldl_cons, sumUpdate_null_src _ c hc, ih a,
            sumNonNull_cons_null c t hc]
      | false =>
          have hstep : sumUpdate { isNull := false, val := a } c =
              { isNull := false, val := a + c.val } := by
            simp [sumUpdate, hc]
          rw [List.foldl_cons, hstep, ih (a + c.val),
            sumNonNull_cons_notnull c t hc, add_assoc]

lemma sum_foldl_allnull {α : Type} [AddMonoid α] (v : α) (l : List (Cell α))
    (h : ∀ c ∈ l, c.isNull = true) :
    List.foldl sumUpdate { isNull := true, val := v } l =
      { isNull := true, val := v } := by
  induction l with
  | nil => rfl
  | cons c t ih =>
      rw [List.foldl_cons, sumUpdate_null_src _ c (h c (by simp))]
      exact ih (fun x hx => h x (by simp [hx]))

lemma sum_foldl_exists {α : Type} [AddMonoid α] (v : α) (l : List (Cell α))
    (h : ∃ c ∈ l, c.isNull = false) :
    List.foldl sumUpdate { isNull := true, val := v } l =
      { isNull := false, val := sumNonNull l } := by
  induction l with
  | nil => simp at h
  | cons c t ih =>
      cases hc : c.isNull with
      | true =>
          have hex : ∃ x ∈ t, x.isNull = false := by
            rcases h with ⟨x, hx, hxn⟩
            rcases List.mem_cons.mp hx with h1 | h2
            · rw [h1] at hxn; rw [hxn] at hc; cases hc
            · exact ⟨x, h2, hxn⟩
          rw [List.foldl_cons, sumUpdate_null_src _ c hc, ih hex,
            sumNonNull_cons_null c t hc]
      | false =>
          have hstep : sumUpdate { isNull := true, val := v } c =
              { isNull := false, val := c.val } := by
            simp [sumUpdate, hc]
          rw [List.foldl_cons, hstep, sum_foldl_notnull c.val t,
            sumNonNull_cons_notnull c t hc]

lemma sum_foldl_split {α : Type} [AddMonoid α] (v : α) (l : List (Cell α)) :
    List.foldl sumUpdate { isNull := true, val := v } l =
      if ∀ c ∈ l, c.isNull = true then { isNull := true, val := v }
      else { isNull := false, val := sumNonNull l } := by
  by_cases h : ∀ c ∈ l, c.isNull = true
  · rw [if_pos h]; exact sum_foldl_allnull v l h
  · rw [if_neg h]
    push_neg at h
    rcases h with ⟨c, hc, hcn⟩
    exact sum_foldl_exists v l ⟨c, hc, Bool.not_eq_true _ ▸ hcn⟩

/-- C5: SUM folding from the initialized (null) state, followed by finalize
(a no-op), yields the sum of the non-null values; the result is invariant
under permutation of the input sequence; folding a concatenation equals
merging the two halves' partial aggregates with `sumUpdate` itself
(grouping/associativity); and an all-null sequence leaves the destination
null. -/
theorem C5_sum_fold :
    ∀ (w : ℕ) (c₀ : Cell (ZMod (2 ^ w))) (l l' l₁ l₂ : List (Cell (ZMod (2 ^ w)))),
      ((∀ c ∈ l, c.isNull = true) →
        baseFinalize (List.foldl sumUpdate (baseInit c₀) l) = baseInit c₀) ∧
      ((∃ c ∈ l, c.isNull = false) →
        baseFinalize (List.foldl sumUpdate (baseInit c₀) l) =
          { isNull := false, val := sumNonNull l }) ∧
      (l.Perm l' →
        List.foldl sumUpdate (baseInit c₀) l =
          List.foldl sumUpdate (baseInit c₀) l') ∧
      (List.foldl sumUpdate (baseInit c₀) (l₁ ++ l₂) =
        sumUpdate (List.foldl sumUpdate (baseInit c₀) l₁)
          (List.foldl sumUpdate (baseInit c₀) l₂)) := by
  intro w c₀ l l' l₁ l₂
  refine ⟨?_, ?_, ?_, ?_⟩
  · intro h
    simp only [baseFinalize, baseInit]
    exact sum_foldl_allnull c₀.val l h
  · intro h
    simp only [baseFinalize, baseInit]
    exact sum_foldl_exists c₀.val l h
  · intro hp
    simp only [baseInit]
    rw [sum_foldl_split, sum_foldl_split]
    have hmem : (∀ c ∈ l, c.isNull = true) ↔ (∀ c ∈ l', c.isNull = true) := by
      constructor
      · intro h c hc; exact h c (hp.mem_iff.mpr hc)
      · intro h c hc; exact h c (hp.mem_iff.mp hc)
    have hsum : sumNonNull l = sumNonNull l' := by
      unfold sumNonNull
      exact List.Perm.sum_eq (hp.filterMap _)
    by_cases h : ∀ c ∈ l, c.isNull = true
    · rw [if_pos h, if_pos (hmem.mp h)]
    · rw [if_neg h, if_neg (fun h2 => h (hmem.mpr h2)), hsum]
  · simp only [baseInit]
    rw [sum_foldl_split, sum_foldl_split, sum_foldl_split (α := ZMod (2 ^ w))]
    by_cases h1 : ∀ c ∈ l₁, c.isNull = true
    · by_cases h2 : ∀ c ∈ l₂, c.isNull = true
      · have h12 : ∀ c ∈ l₁ ++ l₂, c.isNull = true := by
          intro c hc
          rcases List.mem_append.mp hc with h | h
          · exact h1 c h
          · exact h2 c h
        rw [if_pos h12, if_pos h1, if_pos h2, sumUpdate_null_src _ _ rfl]
      · have h12 : ¬ ∀ c ∈ l₁ ++ l₂, c.isNull = true := by
          intro hall
          exact h2 (fun c hc => hall c (List.mem_append.mpr (Or.inr hc)))
        rw [if_neg h12, if_pos h1, if_neg h2]
        have : sumUpdate ({ isNull := true, val := c₀.val } : Cell (ZMod (2 ^ w)))
            { isNull := false, val := sumNonNull l₂ } =
            { isNull := false, val := sumNonNull l₂ } := by
          simp [sumUpdate]
        rw [this, sumNonNull_append, sumNonNull_allnull l₁ h1, zero_add]
    · have h12 : ¬ ∀ c ∈ l₁ ++ l₂, c.isNull = true := by
        intro hall
        exact h1 (fun c hc => hall c (List.mem_append.mpr (Or.inl hc)))
      rw [if_neg h12, if_neg h1]
      by_cases h2 : ∀ c ∈ l₂, c.isNull = true
      · rw [if_pos h2, sumUpdate_null_src _ _ rfl, sumNonNull_append,
          sumNonNull_allnull l₂ h2, add_zero]
      · rw [if_neg h2]
        have : sumUpdate ({ isNull := false, val := sumNonNull l₁ } : Cell (ZMod (2 ^ w)))
            { isNull := false, val := sumNonNull l₂ } =
            { isNull := false, val := sumNonNull l₁ + sumNonNull l₂ } := by
          simp [sumUpdate]
        rw [this, sumNonNull_append]

/-- Witness for C5 at concrete inputs (width 8). -/
theorem C5_sum_fold_witness :
    baseFinalize (List.foldl sumUpdate
        (baseInit ({ isNull := false, val := 9 } : Cell (ZMod (2 ^ 8))))
        [{ isNull := false, val := 3 }, { isNull := true, val := 7 },
         { isNull := false, val := 4 }]) =
      { isNull := false,
        val := sumNonNull [({ isNull := false, val := 3 } : Cell (ZMod (2 ^ 8))),
          { isNull := true, val := 7 }, { isNull := false, val := 4 }] } :=
  (C5_sum_fold 8 { isNull := false, val := 9 }
      [{ isNull := false, val := 3 }, { isNull := true, val := 7 },
       { isNull := false, val := 4 }] [] [] []).2.1
    ⟨{ isNull := false, val := 3 }, by simp, rfl⟩

lemma sumNonNull_map_notnull {w : ℕ} (l : List ℕ) :
    sumNonNull (l.map (fun n : ℕ =>
        ({ isNull := false, val := (n : ZMod (2 ^ w)) } : Cell (ZMod (2 ^ w))))) =
      (l.map (fun n : ℕ => (n : ZMod (2 ^ w)))).sum := by
  induction l with
  | nil => simp [sumNonNull]
  | cons n t ih =>
      rw [List.map_cons, sumNonNull_cons_notnull _ _ rfl, ih, List.map_cons,
        List.sum_cons]

/-- C6: SUM update does no overflow checking: folding non-null `w`-bit
integer cells always succeeds (destination committed, marked non-null) and
the accumulated value is the arithmetic sum reduced modulo `2 ^ w`. -/
theorem C6_sum_wraps_modulo :
    ∀ (w : ℕ) (v : ZMod (2 ^ w)) (l : List ℕ), l ≠ [] →
      (List.foldl sumUpdate { isNull := true, val := v }
          (l.map (fun n : ℕ => { isNull := false, val := (n : ZMod (2 ^ w)) }))).isNull =
        false ∧
      (List.foldl sumUpdate { isNull := true, val := v }
          (l.map (fun n : ℕ => { isNull := false, val := (n : ZMod (2 ^ w)) }))).val.val =
        l.sum % 2 ^ w := by
  intro w v l hl
  haveI : NeZero (2 ^ w) := ⟨pow_ne_zero w (by norm_num)⟩
  cases l with
  | nil => exact absurd rfl hl
  | cons n t =>
      have hex : ∃ c ∈ (n :: t).map
          (fun m : ℕ => ({ isNull := false, val := (m : ZMod (2 ^ w)) } : Cell (ZMod (2 ^ w)))),
          c.isNull = false :=
        ⟨{ isNull := false, val := (n : ZMod (2 ^ w)) }, by simp, rfl⟩
      rw [sum_foldl_exists v _ hex]
      refine ⟨rfl, ?_⟩
      have hcast : (((n :: t).map (fun m : ℕ => (m : ZMod (2 ^ w)))).sum) =
          ((((n :: t).sum : ℕ)) : ZMod (2 ^ w)) := (Nat.cast_list_sum _).symm
      rw [sumNonNull_map_notnull, hcast]
      exact ZMod.val_natCast _

/-- Witness for C6 at width 8: 200 + 100 wraps to 44 = 300 mod 256. -/
theorem C6_sum_wraps_modulo_witness :
    (List.foldl sumUpdate ({ isNull := true, val := 0 } : Cell (ZMod (2 ^ 8)))
        ([200, 100].map (fun n : ℕ =>
          { isNull := false, val := (n : ZMod (2 ^ 8)) }))).val.val = 44 := by
  have h := (C6_sum_wraps_modulo 8 0 [200, 100] (by simp)).2
  rw [h]
  decide

/-- C7: the LARGEINT specializations of MIN, MAX and SUM update (byte-copy
into locals) compute exactly the same destination cell as the generic
fixed-width templates instantiated at the 128-bit integer type, for every
destination/source pair. -/
theorem C7_largeint_matches_generic :
    ∀ d s : Cell Int128,
      minUpdateLargeint d s = minUpdate d s ∧
      maxUpdateLargeint d s = maxUpdate d s ∧
      sumUpdateLargeint d s = sumUpdate d s := by
  intro d s
  refine ⟨?_, ?_, ?_⟩
  · cases hs : s.isNull with
    | true => simp [minUpdateLargeint, minUpdate, hs]
    | false =>
        cases hd : d.isNull with
        | true => simp [minUpdateLargeint, minUpdate, hs, hd]
        | false =>
            by_cases h : s.val < d.val <;>
              simp [minUpdateLargeint, minUpdate, hs, hd, h]
  · cases hs : s.isNull with
    | true => simp [maxUpdateLargeint, maxUpdate, hs]
    | false =>
        cases hd : d.isNull with
        | true => simp [maxUpdateLargeint, maxUpdate, hs, hd]
        | false =>
            by_cases h : s.val > d.val <;>
              simp [maxUpdateLargeint, maxUpdate, hs, hd, h]
  · cases hs : s.isNull with
    | true => simp [sumUpdateLargeint, sumUpdate, hs]
    | false =>
        cases hd : d.isNull with
        | true => simp [sumUpdateLargeint, sumUpdate, hs, hd]
        | false => simp [sumUpdateLargeint, sumUpdate, hs, hd]

/-- C2 counterexample: for REPLACE, a null source does change a non-null
destination — its null flag is overwritten — so a null source is not an
identity for every aggregation method. -/
theorem C2_counterexample :
    replaceUpdate ({ isNull := false, val := 5 } : Cell Int)
        { isNull := true, val := 9 } ≠
      { isNull := false, val := 5 } := by
  decide

/-- C2 amended: a null source leaves the destination entirely unchanged for
MIN, MAX and SUM (including the LARGEINT specializations); for REPLACE
(including the CHAR/VARCHAR specialization) a null source sets the
destination's null flag to true and leaves the value bytes unchanged. -/
theorem C2_amended_null_src :
    (∀ {α : Type} [LinearOrder α] (d s : Cell α), s.isNull = true →
        minUpdate d s = d ∧ maxUpdate d s = d) ∧
    (∀ {α : Type} [Add α] (d s : Cell α), s.isNull = true → sumUpdate d s = d) ∧
    (∀ d s : Cell Int128, s.isNull = true →
        minUpdateLargeint d s = d ∧ maxUpdateLargeint d s = d ∧
        sumUpdateLargeint d s = d) ∧
    (∀ {α : Type} (d s : Cell α), s.isNull = true →
        replaceUpdate d s = { isNull := true, val := d.val }) ∧
    (∀ (b : Bool) (d s : Cell Slice), s.isNull = true →
        replaceCharUpdate b d s = { isNull := true, val := d.val }) := by
  refine ⟨?_, ?_, ?_, ?_, ?_⟩
  · intro α inst d s h
    exact ⟨minUpdate_null_src d s h, maxUpdate_null_src d s h⟩
  · intro α inst d s h
    exact sumUpdate_null_src d s h
  · intro d s h
    refine ⟨?_, ?_, ?_⟩
    · simp [minUpdateLargeint, h]
    · simp [maxUpdateLargeint, h]
    · simp [sumUpdateLargeint, h]
  · intro α d s h
    simp [replaceUpdate, h]
  · intro b d s h
    simp [replaceCharUpdate, h]

/-- Witness for C2 amended at concrete inputs. -/
theorem C2_amended_null_src_witness :
    minUpdate ({ isNull := false, val := 4 } : Cell Int) { isNull := true, val := 9 } =
      { isNull := false, val := 4 } ∧
    replaceUpdate ({ isNull := false, val := 4 } : Cell Int) { isNull := true, val := 9 } =
      { isNull := true, val := 4 } :=
  ⟨(C2_amended_null_src.1 ({ isNull := false, val := 4 } : Cell Int)
      { isNull := true, val := 9 } rfl).1,
   C2_amended_null_src.2.2.2.1 ({ isNull := false, val := 4 } : Cell Int)
      { isNull := true, val := 9 } rfl⟩

/-- C1 counterexample: REPLACE on CHAR with a null arena and a destination
buffer of recorded size 1 receiving a source slice of size 2 copies the
full two source bytes and records size 2 — nothing is truncated to the
prior capacity. -/
theorem C1_counterexample :
    (replaceCharUpdate false
        { isNull := false, val := { data := [7], size := 1 } }
        { isNull := false, val := { data := [1, 2], size := 2 } }) =
      { isNull := false, val := { data := [1, 2], size := 2 } } ∧
    ¬ ((replaceCharUpdate false
        { isNull := false, val := { data := [7], size := 1 } }
        { isNull := false, val := { data := [1, 2], size := 2 } }).val.size ≤ 1) := by
  constructor
  · rfl
  · decide

/-- C1 amended: with a null arena and a non-null source, REPLACE on
CHAR/VARCHAR always takes the in-place path: it copies the full source
slice into the destination buffer's memory (the first `src.size` bytes,
regardless of the destination's prior recorded size) and sets the recorded
size to the source's size — the copy is not truncated. -/
theorem C1_amended_no_arena_full_copy :
    ∀ d s : Cell Slice, s.isNull = false →
      replaceCharUpdate false d s =
        { isNull := false,
          val := { data := memory_copy d.val.data s.val.data s.val.size,
                   size := s.val.size } } := by
  intro d s h
  simp [replaceCharUpdate, h]

/-- Witness for C1 amended at the counterexample input. -/
theorem C1_amended_no_arena_full_copy_witness :
    replaceCharUpdate false
        { isNull := false, val := { data := [7], size := 1 } }
        { isNull := false, val := { data := [1, 2], size := 2 } } =
      { isNull := false,
        val := { data := memory_copy [7] [1, 2] 2, size := 2 } } :=
  C1_amended_no_arena_full_copy
    { isNull := false, val := { data := [7], size := 1 } }
    { isNull := false, val := { data := [1, 2], size := 2 } } rfl

/-- C9: whenever a traits bundle supplies no explicit merge (merge is
`nullptr`), the constructed AggregateInfo's merge function pointer is the
update function pointer; and none of the built-in specializations in this
excerpt supplies a merge, so for each of them merge is identical to
update. -/
theorem C9_merge_defaults_to_update :
    (∀ {υ : Type} (t : AggTraits υ), t.merge = none →
        (mkAggregateInfo t).mergeFn = (mkAggregateInfo t).updateFn) ∧
    ((baseTraits Int).merge = none ∧ (minTraits Int).merge = none ∧
      minLargeintTraits.merge = none ∧ (maxTraits Int).merge = none ∧
      maxLargeintTraits.merge = none ∧ (sumTraits Int).merge = none ∧
      sumLargeintTraits.merge = none ∧ (replaceTraits Int).merge = none ∧
      replaceCharTraits.merge = none ∧ hllTraits.merge = none) ∧
    ((mkAggregateInfo (baseTraits Int)).mergeFn =
        (mkAggregateInfo (baseTraits Int)).updateFn ∧
      (mkAggregateInfo (minTraits Int)).mergeFn =
        (mkAggregateInfo (minTraits Int)).updateFn ∧
      (mkAggregateInfo minLargeintTraits).mergeFn =
        (mkAggregateInfo minLargeintTraits).updateFn ∧
      (mkAggregateInfo (maxTraits Int)).mergeFn =
        (mkAggregateInfo (maxTraits Int)).updateFn ∧
      (mkAggregateInfo maxLargeintTraits).mergeFn =
        (mkAggregateInfo maxLargeintTraits).updateFn ∧
      (mkAggregateInfo (sumTraits Int)).mergeFn =
        (mkAggregateInfo (sumTraits Int)).updateFn ∧
      (mkAggregateInfo sumLargeintTraits).mergeFn =
        (mkAggregateInfo sumLargeintTraits).updateFn ∧
      (mkAggregateInfo (replaceTraits Int)).mergeFn =
        (mkAggregateInfo (replaceTraits Int)).updateFn ∧
      (mkAggregateInfo replaceCharTraits).mergeFn =
        (mkAggregateInfo replaceCharTraits).updateFn ∧
      (mkAggregateInfo hllTraits).mergeFn =
        (mkAggregateInfo hllTraits).updateFn) := by
  refine ⟨?_, ?_, ?_⟩
  · intro υ t h
    simp [mkAggregateInfo, h]
  · exact ⟨rfl, rfl, rfl, rfl, rfl, rfl, rfl, rfl, rfl, rfl⟩
  · exact ⟨rfl, rfl, rfl, rfl, rfl, rfl, rfl, rfl, rfl, rfl⟩

/-- Witness for C9: the defaulting clause applied to the built-in SUM
traits. -/
theorem C9_merge_defaults_to_update_witness :
    (mkAggregateInfo (sumTraits Int)).mergeFn =
      (mkAggregateInfo (sumTraits Int)).updateFn :=
  C9_merge_defaults_to_update.1 (sumTraits Int) rfl

lemma nonzeroCount_eq_zero_iff (l : List Nat) :
    nonzeroCount l = 0 ↔ ∀ r ∈ l, r = 0 := by
  simp [nonzeroCount, List.length_eq_zero, List.filter_eq_nil_iff]

lemma nonzeroCount_pos_iff (l : List Nat) :
    0 < nonzeroCount l ↔ ∃ r ∈ l, r ≠ 0 := by
  rw [Nat.pos_iff_ne_zero, Ne, nonzeroCount_eq_zero_iff]
  push_neg
  rfl

lemma hllFinalize_registers (x : HllContext) :
    (hllFinalize x).registers =
      if x.hasSparseOrFull || decide (x.hash64Set.length > HLL_EXPLICLIT_INT64_NUM)
      then set_max_register x.registers x.hash64Set
      else x.registers := rfl

lemma hllFinalize_converted_eq (x : HllContext) :
    (hllFinalize x).converted =
      (x.hasSparseOrFull || decide (x.hash64Set.length > HLL_EXPLICLIT_INT64_NUM)) := rfl

lemma hllFinalize_tag_eq (x : HllContext) :
    (hllFinalize x).tag =
      (if sparseSetLen
            (if x.hasSparseOrFull || decide (x.hash64Set.length > HLL_EXPLICLIT_INT64_NUM)
             then nonzeroCount
               (if x.hasSparseOrFull || decide (x.hash64Set.length > HLL_EXPLICLIT_INT64_NUM)
                then set_max_register x.registers x.hash64Set
                else x.registers)
             else 0) ≥ HLL_COLUMN_DEFAULT_LEN then HllTag.fullE
       else if (if x.hasSparseOrFull || decide (x.hash64Set.length > HLL_EXPLICLIT_INT64_NUM)
                then nonzeroCount
                  (if x.hasSparseOrFull || decide (x.hash64Set.length > HLL_EXPLICLIT_INT64_NUM)
                   then set_max_register x.registers x.hash64Set
                   else x.registers)
                else 0) > 0 then HllTag.sparseE
       else if x.hash64Set.length > 0 then HllTag.explicitE
       else HllTag.emptyE) := rfl

lemma hllFinalize_idxCount (x : HllContext)
    (hinv : x.hasSparseOrFull = false → ∀ r ∈ x.registers, r = 0) :
    (if x.hasSparseOrFull || decide (x.hash64Set.length > HLL_EXPLICLIT_INT64_NUM)
     then nonzeroCount
       (if x.hasSparseOrFull || decide (x.hash64Set.length > HLL_EXPLICLIT_INT64_NUM)
        then set_max_register x.registers x.hash64Set
        else x.registers)
     else 0) = nonzeroCount (hllFinalize x).registers := by
  rw [hllFinalize_registers]
  cases hc : (x.hasSparseOrFull || decide (x.hash64Set.length > HLL_EXPLICLIT_INT64_NUM)) with
  | true => simp
  | false =>
      have hb : x.hasSparseOrFull = false := (Bool.or_eq_false_iff.mp hc).1
      simp only [Bool.false_eq_true, if_false]
      exact ((nonzeroCount_eq_zero_iff x.registers).mpr (hinv hb)).symm

/-- C3: HLL_UNION finalize selects FULL exactly when the computed sparse
length reaches `HLL_COLUMN_DEFAULT_LEN`; otherwise SPARSE exactly when some
register is non-zero; otherwise EXPLICIT exactly when the explicit hash set
is non-empty; and register conversion runs exactly when the sparse/full
representation was already in use or the hash set exceeds
`HLL_EXPLICLIT_INT64_NUM`.  The hypothesis is the context invariant that
registers are untouched (all zero) until the sparse/full representation is
in use. -/
theorem C3_hll_finalize_encoding_choice :
    ∀ x : HllContext,
      (x.hasSparseOrFull = false → ∀ r ∈ x.registers, r = 0) →
      ((hllFinalize x).tag = HllTag.fullE ↔
        HLL_COLUMN_DEFAULT_LEN ≤ sparseSetLen (nonzeroCount (hllFinalize x).registers)) ∧
      ((hllFinalize x).tag = HllTag.sparseE ↔
        sparseSetLen (nonzeroCount (hllFinalize x).registers) < HLL_COLUMN_DEFAULT_LEN ∧
        ∃ r ∈ (hllFinalize x).registers, r ≠ 0) ∧
      ((hllFinalize x).tag = HllTag.explicitE ↔
        sparseSetLen (nonzeroCount (hllFinalize x).registers) < HLL_COLUMN_DEFAULT_LEN ∧
        (∀ r ∈ (hllFinalize x).registers, r = 0) ∧ x.hash64Set ≠ []) ∧
      ((hllFinalize x).converted = true ↔
        x.hasSparseOrFull = true ∨ HLL_EXPLICLIT_INT64_NUM < x.hash64Set.length) := by
  intro x hinv
  have htag := hllFinalize_tag_eq x
  rw [hllFinalize_idxCount x hinv] at htag
  refine ⟨?_, ?_, ?_, ?_⟩
  · rw [htag]
    by_cases h1 : HLL_COLUMN_DEFAULT_LEN ≤
        sparseSetLen (nonzeroCount (hllFinalize x).registers)
    · simp [h1]
    · by_cases h2 : 0 < nonzeroCount (hllFinalize x).registers <;>
        by_cases h3 : 0 < x.hash64Set.length <;>
          simp [h1, h2, h3]
  · rw [htag]
    by_cases h1 : HLL_COLUMN_DEFAULT_LEN ≤
        sparseSetLen (nonzeroCount (hllFinalize x).registers)
    · simp [h1, not_lt.mpr h1]
    · by_cases h2 : 0 < nonzeroCount (hllFinalize x).registers
      · simp [h1, h2, not_le.mp h1, (nonzeroCount_pos_iff _).mp h2]
      · have hz : ∀ r ∈ (hllFinalize x).registers, r = 0 :=
          (nonzeroCount_eq_zero_iff _).mp (Nat.eq_zero_of_not_pos h2)
        have hne : ¬ ∃ r ∈ (hllFinalize x).registers, r ≠ 0 := by
          rw [← nonzeroCount_pos_iff]; exact h2
        by_cases h3 : 0 < x.hash64Set.length <;> simp [h1, h2, h3, hne]
  · rw [htag]
    by_cases h1 : HLL_COLUMN_DEFAULT_LEN ≤
        sparseSetLen (nonzeroCount (hllFinalize x).registers)
    · simp [h1, not_lt.mpr h1]
    · by_cases h2 : 0 < nonzeroCount (hllFinalize x).registers
      · have hnz : ¬ ∀ r ∈ (hllFinalize x).registers, r = 0 := by
          rw [← nonzeroCount_eq_zero_iff]
          exact Nat.pos_iff_ne_zero.mp h2
        simp [h1, h2, hnz]
      · have hz : ∀ r ∈ (hllFinalize x).registers, r = 0 :=
          (nonzeroCount_eq_zero_iff _).mp (Nat.eq_zero_of_not_pos h2)
        by_cases h3 : 0 < x.hash64Set.length
        · rw [if_neg h1, if_neg h2, if_pos h3]
          exact iff_of_true rfl
            ⟨not_le.mp h1, hz, List.ne_nil_of_length_pos h3⟩
        · have hnil : x.hash64Set = [] :=
            List.length_eq_zero.mp (Nat.eq_zero_of_not_pos h3)
          rw [if_neg h1, if_neg h2, if_neg h3]
          exact iff_of_false (by simp) (by simp [hnil])
  · rw [hllFinalize_converted_eq]
    cases hb : x.hasSparseOrFull with
    | true => simp
    | false => simp

/-- Witness for C3 at a concrete already-converted context. -/
theorem C3_hll_finalize_encoding_choice_witness :
    ((hllFinalize (HllContext.mk true [] [0, 3])).tag = HllTag.fullE ↔
      HLL_COLUMN_DEFAULT_LEN ≤
        sparseSetLen (nonzeroCount (hllFinalize (HllContext.mk true [] [0, 3])).registers)) :=
  (C3_hll_finalize_encoding_choice (HllContext.mk true [] [0, 3])
    (by intro h; cases h)).1

/-- C10: finalize on an empty accumulator — empty explicit hash set and no
prior sparse/full conversion — invokes no serializer at all (not even a
format tag byte is written) and records slice size 0. -/
theorem C10_hll_finalize_empty :
    ∀ x : HllContext, x.hash64Set = [] → x.hasSparseOrFull = false →
      (hllFinalize x).tag = HllTag.emptyE ∧
      (hllFinalize x).bytesWritten = 0 ∧
      (hllFinalize x).sliceSize = 0 := by
  intro x hset hb
  simp [hllFinalize, hset, hb, sparseSetLen, sparseLengthSize, sparseIndexSize,
    sparseValueSize, HLL_COLUMN_DEFAULT_LEN, HLL_EXPLICLIT_INT64_NUM, nonzeroCount]

/-- Witness for C10 at a concrete empty context with dirty registers. -/
theorem C10_hll_finalize_empty_witness :
    (hllFinalize (HllContext.mk false [] [9, 0])).sliceSize = 0 :=
  (C10_hll_finalize_empty (HllContext.mk false [] [9, 0]) rfl rfl).2.2

end Doris
